import Mathlib

/-!
Verification of the email-validator pipeline (`src/utils/checks.ts`,
`src/utils/email-validate.ts`, `src/utils/noProbeList.ts`,
`src/utils/interfaces.ts`) against its specification.

The TypeScript functions are shallowly embedded as executable Lean
definitions.  Network collaborators (DNS, SMTP socket, WHOIS, the JS `Date`
constructor and clock) are modelled as an explicit environment record `Env`
of pure response functions, so every run of the pipeline is a pure function
of the address, the lists, the flags and the environment.  JavaScript
strings are handled through their character lists: `jsSplit` models
`String.prototype.split` with a one-character separator and `charToLower`
models `toLowerCase` on the ASCII range (the only range the validated
addresses can contain).  JS numbers that can become `NaN` are modelled by
`JsNum`.
-/

namespace EmailValidator

/-- Model of `String.prototype.split(sep)` for a one-character separator,
working over the character list of the string.  Splitting a string with
`n` occurrences of the separator yields `n + 1` (possibly empty) pieces. -/
def jsSplit (sep : Char) : List Char → List (List Char)
  | [] => [[]]
  | c :: cs =>
    if c = sep then [] :: jsSplit sep cs
    else
      match jsSplit sep cs with
      | [] => [[c]]
      | p :: ps => (c :: p) :: ps

/-- Join pieces back with the separator: the left inverse of `jsSplit`. -/
def joinSep (sep : Char) : List (List Char) → List Char
  | [] => []
  | [p] => p
  | p :: q :: ps => p ++ sep :: joinSep sep (q :: ps)

/-- Model of `String.prototype.toLowerCase` on one ASCII character:
JS maps the code points 65–90 (`A`–`Z`) to 97–122 (`a`–`z`) and leaves
every other ASCII character unchanged. -/
def charToLower (c : Char) : Char :=
  if 65 ≤ c.toNat ∧ c.toNat ≤ 90 then Char.ofNat (c.toNat + 32) else c

/-- `toLowerCase` over a whole character list. -/
def jsToLower (cs : List Char) : List Char := cs.map charToLower

/-- Model of `String.prototype.startsWith` over character lists. -/
def jsStartsWith : List Char → List Char → Bool
  | _, [] => true
  | [], _ :: _ => false
  | c :: cs, p :: ps => c = p && jsStartsWith cs ps

/-- The regex class `[a-zA-Z]`. -/
def isAlphaChar (c : Char) : Bool :=
  (65 ≤ c.toNat && c.toNat ≤ 90) || (97 ≤ c.toNat && c.toNat ≤ 122)

/-- The regex class `[0-9]`. -/
def isDigitChar (c : Char) : Bool :=
  48 ≤ c.toNat && c.toNat ≤ 57

/-- The regex class `[a-zA-Z0-9._%+-]` (the local part of the address). -/
def isLocalChar (c : Char) : Bool :=
  isAlphaChar c || isDigitChar c || c = '.' || c = '_' || c = '%' || c = '+' || c = '-'

/-- The regex class `[a-zA-Z0-9.-]` (the domain before its final dot). -/
def isDomainChar (c : Char) : Bool :=
  isAlphaChar c || isDigitChar c || c = '.' || c = '-'

/-- The domain side of the regex, `[a-zA-Z0-9.-]+\.[a-zA-Z]\x7b2,\x7d$`:
everything before the last dot is a nonempty run of domain characters and
everything after it is an alphabetic top-level label of length at least 2.
(Only the last dot can be the regex's literal dot, because the tail
`[a-zA-Z]` class admits no dot.) -/
def domainOk (dom : List Char) : Bool :=
  match (jsSplit '.' dom).reverse with
  | tld :: p :: ps =>
    let pre := joinSep '.' ((p :: ps).reverse)
    decide (pre ≠ []) && pre.all isDomainChar &&
      decide (2 ≤ tld.length) && tld.all isAlphaChar
  | _ => false

/-- `syntaxCheck` from `email-validate.ts`: tests the address against
`^[a-zA-Z0-9._%+-]+@[a-zA-Z0-9.-]+\.[a-zA-Z]\x7b2,\x7d$`.  A match needs
exactly one `@` (no character class admits `@`), a nonempty local part of
local characters, and a domain accepted by `domainOk`. -/
def syntaxCheck (email : String) : Bool :=
  match jsSplit '@' email.data with
  | [lcl, dom] => decide (lcl ≠ []) && lcl.all isLocalChar && domainOk dom
  | _ => false

/-- `isDomainInList` from `email-validate.ts`:
`domain ? list.has(domain) : false` (the empty string is falsy). -/
def isDomainInList (domain : String) (list : List String) : Bool :=
  if domain = "" then false else list.contains domain

/-- `isRoleEmail` from `email-validate.ts`: the raw local part
(`email.split("@")[0]`) is compared, case-sensitively, against the fixed
role names. -/
def isRoleEmail (email : String) : Bool :=
  let lcl := ((jsSplit '@' email.data).headD []).asString
  ["admin", "info", "support", "postmaster", "noreply"].contains lcl

/-- `NO_PROBE_PROVIDERS` from `noProbeList.ts`. -/
def NO_PROBE_PROVIDERS : List String :=
  ["gmail.com", "googlemail.com", "google.com",
   "outlook.com", "hotmail.com", "live.com", "office365.com", "microsoft.com",
   "yahoo.com", "ymail.com", "rocketmail.com",
   "icloud.com", "me.com", "mac.com",
   "protonmail.com", "pm.me",
   "zoho.com", "zoho.eu",
   "gmx.com", "gmx.net", "mail.com",
   "aol.com", "hey.com", "fastmail.com"]

/-- `email.split("@")[1].toLowerCase()` — the lower-cased domain the
orchestrator uses for every list and DNS lookup. -/
def emailDomain (email : String) : String :=
  (jsToLower ((jsSplit '@' email.data).getD 1 [])).asString

/-- One DNS MX record, as returned by `dns.resolveMx`. -/
structure MxRecord where
  exchange : String
  priority : Int
  deriving DecidableEq, Repr

/-- A WHOIS sub-record: only its optional `creationDate` string matters to
`getDomainAge`. -/
structure WhoisRecord where
  creationDate : Option String
  deriving DecidableEq, Repr

/-- The shape of a `whois-json` response: a single object or an array of
sub-records. -/
inductive WhoisResp where
  | single : WhoisRecord → WhoisResp
  | array : List WhoisRecord → WhoisResp
  deriving DecidableEq, Repr

/-- The external collaborators of the pipeline, as pure response functions:
DNS MX and TXT resolution (an `Except.error` is a thrown/rejected lookup),
the SMTP socket (whether the host at the resolved MX accepts a connection
and greets — the TS promise always resolves to a boolean), the WHOIS
lookup, the JS `Date` parser (`none` is an `Invalid Date`) and the current
clock in milliseconds since the epoch. -/
structure Env where
  resolveMx : String → Except String (List MxRecord)
  resolveTxt : String → Except String (List (List String))
  smtpConnect : String → Bool
  whois : String → Except String WhoisResp
  parseDate : String → Option Int
  now : Int

/-- `checkMX` from `email-validate.ts`: resolve MX; a thrown lookup becomes
`Error("DNS lookup failed: …")`, an empty record set becomes
`Error("No MX records found")`, otherwise `true`. -/
def checkMX (env : Env) (domain : String) : Except String Bool :=
  match env.resolveMx domain with
  | .error msg => .error ("DNS lookup failed: " ++ msg)
  | .ok mxRecords =>
    if mxRecords.length = 0 then .error "No MX records found"
    else .ok true

/-- `isSMTP` from `email-validate.ts`: re-resolve MX, pick the record with
the numerically lowest priority (`sort((a, b) => a.priority - b.priority)[0]`,
a stable sort, hence the first record of minimal priority), and open an
SMTP session to it; the session outcome is the environment's
`smtpConnect` verdict on that host. -/
def isSMTP (env : Env) (domain : String) : Except String Bool :=
  match env.resolveMx domain with
  | .error msg => .error ("DNS lookup failed: " ++ msg)
  | .ok mxRecords =>
    if mxRecords.length = 0 then
      .error ("No MX records found for " ++ domain)
    else
      let sorted := mxRecords.mergeSort (fun a b => a.priority ≤ b.priority)
      let mxHost := (sorted.headD { exchange := "", priority := 0 }).exchange
      .ok (env.smtpConnect mxHost)

/-- `hasSPF` from `email-validate.ts`: true iff some TXT record of the
domain, chunks joined and lower-cased, starts with `v=spf1`; any DNS error
yields `false`. -/
def hasSPF (env : Env) (domain : String) : Bool :=
  match env.resolveTxt domain with
  | .error _ => false
  | .ok records =>
    records.any (fun txt => jsStartsWith (jsToLower (String.join txt).data) "v=spf1".data)

/-- `hasDMARC` from `email-validate.ts`: same as `hasSPF` but the TXT query
goes to the `_dmarc.` subdomain and the tag is `v=dmarc1`. -/
def hasDMARC (env : Env) (domain : String) : Bool :=
  match env.resolveTxt ("_dmarc." ++ domain) with
  | .error _ => false
  | .ok records =>
    records.any (fun txt => jsStartsWith (jsToLower (String.join txt).data) "v=dmarc1".data)

/-- A JavaScript number that the age computation can produce: an integer or
`NaN` (`Math.floor` of the elapsed-time quotient is `NaN` exactly when the
creation date parsed to an `Invalid Date`). -/
inductive JsNum where
  | nan : JsNum
  | int : Int → JsNum
  deriving DecidableEq, Repr

/-- JS truthiness of an optional string (`undefined` and `""` are falsy). -/
def truthyStr : Option String → Bool
  | none => false
  | some s => s ≠ ""

/-- The milliseconds of `1000 * 60 * 60 * 24 * 365`. -/
def msPerYear : Int := 1000 * 60 * 60 * 24 * 365

/-- `getDomainAge` from `email-validate.ts`.  A failed lookup returns `0`.
Otherwise the creation date is extracted (from the first array element
with a truthy `creationDate`, or from the single record); a falsy creation
date returns `0`; a truthy one is given to `new Date(…)`: if it parses,
the result is `Math.floor((now - created) / msPerYear)` — `Int.fdiv` is
the exact floor of the quotient — and if it is an `Invalid Date`, the
arithmetic is `NaN`-valued and the function returns `NaN`. -/
def getDomainAge (env : Env) (domain : String) : JsNum :=
  match env.whois domain with
  | .error _ => .int 0
  | .ok info =>
    let creationDate : Option String :=
      match info with
      | .array els =>
        match els.find? (fun el => truthyStr el.creationDate) with
        | some el => el.creationDate
        | none => none
      | .single rec => rec.creationDate
    if truthyStr creationDate then
      match env.parseDate (creationDate.getD "") with
      | none => .nan
      | some created => .int (Int.fdiv (env.now - created) msPerYear)
    else .int 0

/-- The `mx` field of the result: `\x7b ok: boolean \x7d`. -/
structure MxStatus where
  ok : Bool
  deriving DecidableEq, Repr

/-- The `smtp` field of the result: `\x7b ok: boolean; error?: string \x7d`. -/
structure SmtpStatus where
  ok : Bool
  error : Option String
  deriving DecidableEq, Repr

/-- `EmailCheckResult` from `interfaces.ts`.  Every optional TS field is an
`Option`; a field is `none` exactly while its check has not run. -/
structure EmailCheckResult where
  email : String
  syntaxValid : Bool
  mx : Option MxStatus
  smtp : Option SmtpStatus
  inBlocklist : Option Bool
  inTrustedDomains : Option Bool
  isRole : Option Bool
  isDisposable : Option Bool
  hasSPF : Option Bool
  hasDMARC : Option Bool
  domainAgeYears : Option JsNum
  noProbeList : Option Bool
  requestsLeft : Int
  deriving DecidableEq, Repr

/-- The record `checkEmail` builds before any check beyond syntax runs. -/
def initialResult (email : String) (syntaxValid : Bool) (requestsLeft : Int) :
    EmailCheckResult :=
  { email := email, syntaxValid := syntaxValid, requestsLeft := requestsLeft,
    mx := none, smtp := none, inBlocklist := none, inTrustedDomains := none,
    isRole := none, isDisposable := none, hasSPF := none, hasDMARC := none,
    domainAgeYears := none, noProbeList := none }

/-- `checkEmail` from `checks.ts`, the orchestrator.  The second component
of the returned pair records whether the SMTP probe collaborator
(`isSMTP`) was invoked; it is `true` exactly on the branch where the
source awaits `isSMTP(domain)`. -/
def checkEmail (env : Env) (email : String) (blocklist allowlist : List String)
    (skipSMTP : Bool) (requestsLeft : Int) : EmailCheckResult × Bool :=
  let result := initialResult email (syntaxCheck email) requestsLeft
  if !result.syntaxValid then (result, false)
  else
    let domain := emailDomain email
    let isRole := isRoleEmail email
    let inBlocklist := isDomainInList domain blocklist
    let inTrustedDomains := isDomainInList domain allowlist
    let isDisposable := inBlocklist
    let mx : MxStatus :=
      match checkMX env domain with
      | .error _ => { ok := false }
      | .ok _ => { ok := true }
    let noProbe := NO_PROBE_PROVIDERS.contains domain
    let smtpProbed : Option SmtpStatus × Bool :=
      if !skipSMTP && mx.ok && !noProbe then
        match isSMTP env domain with
        | .error e => (some { ok := false, error := some e }, true)
        | .ok b => (some { ok := b, error := none }, true)
      else if skipSMTP then
        (some { ok := false, error := some "SMTP check skipped by request" }, false)
      else if noProbe then
        (some { ok := false, error := some "Provider blocks SMTP probes" }, false)
      else (none, false)
    ({ result with
        isRole := some isRole,
        inBlocklist := some inBlocklist,
        inTrustedDomains := some inTrustedDomains,
        isDisposable := some isDisposable,
        mx := some mx,
        noProbeList := some noProbe,
        smtp := smtpProbed.1,
        hasSPF := some (hasSPF env domain),
        hasDMARC := some (hasDMARC env domain),
        domainAgeYears := some (getDomainAge env domain) },
     smtpProbed.2)

/-- The domain-age term of `calculateScore`:
`if (result.domainAgeYears && result.domainAgeYears >= 1) score += Math.min(result.domainAgeYears, 10)`.
`undefined`, `0` and `NaN` are falsy, and `NaN >= 1` is false. -/
def ageBonus : Option JsNum → Int
  | some (JsNum.int n) => if n ≠ 0 ∧ 1 ≤ n then min n 10 else 0
  | _ => 0

/-- JS truthiness of an optional boolean field (`result.mx?.ok` and the
plain optional boolean fields: `undefined` is falsy). -/
def truthyOpt : Option Bool → Bool
  | none => false
  | some b => b

/-- The accumulated score of `calculateScore` (from the current revision of
`email-validate.ts`) before the final clamping to `[0, 100]`:
`20` for syntax, `+15` MX, `+20` SMTP, `-20` blocklist, `+10` trusted or
no-probe, `-25` disposable, `-5` role, `+10` SPF, `+10` DMARC, plus the
capped domain-age bonus. -/
def calculateScoreRaw (result : EmailCheckResult) : Int :=
  20
  + (if truthyOpt (result.mx.map MxStatus.ok) then 15 else 0)
  + (if truthyOpt (result.smtp.map SmtpStatus.ok) then 20 else 0)
  - (if truthyOpt result.inBlocklist then 20 else 0)
  + (if truthyOpt result.inTrustedDomains || truthyOpt result.noProbeList then 10 else 0)
  - (if truthyOpt result.isDisposable then 25 else 0)
  - (if truthyOpt result.isRole then 5 else 0)
  + (if truthyOpt result.hasSPF then 10 else 0)
  + (if truthyOpt result.hasDMARC then 10 else 0)
  + ageBonus result.domainAgeYears

/-- `calculateScore` from the current revision of `email-validate.ts`:
`0` on invalid syntax, otherwise the accumulated score normalized into
`[0, 100]` by the two trailing `if`s of the source. -/
def calculateScore (result : EmailCheckResult) : Int :=
  if !result.syntaxValid then 0
  else
    let score := calculateScoreRaw result
    let score := if score < 0 then 0 else score
    let score := if score > 100 then 100 else score
    score

/-- A concrete environment for witnesses: one MX record, every TXT lookup
rejects, the SMTP socket always greets, WHOIS rejects. -/
def mockEnv : Env :=
  { resolveMx := fun _ => .ok [{ exchange := "mx.test", priority := 10 }],
    resolveTxt := fun _ => .error "queryTxt ENODATA",
    smtpConnect := fun _ => true,
    whois := fun _ => .error "lookup failed",
    parseDate := fun _ => none,
    now := 0 }

/-- A concrete environment whose MX resolution yields no records. -/
def mockEnvNoMx : Env :=
  { mockEnv with resolveMx := fun _ => .ok [] }

/-- A concrete environment whose WHOIS response carries an unparseable
creation date, and another whose creation date lies one year in the
future of the clock. -/
def mockEnvBadDate : Env :=
  { mockEnv with whois := fun _ => .ok (.single { creationDate := some "garbage" }) }

/-- A concrete environment whose TXT lookups return a mixed-case SPF
record. -/
def mockEnvSpf : Env :=
  { mockEnv with resolveTxt := fun _ => .ok [["V=sPf1 include:x"], ["other"]] }

/-- WHOIS returns a creation date one year after `now`. -/
def mockEnvFutureDate : Env :=
  { mockEnv with
    whois := fun _ => .ok (.single { creationDate := some "2030-01-01" }),
    parseDate := fun _ => some msPerYear,
    now := 0 }

theorem char_eq_iff_toNat {a b : Char} : a = b ↔ a.toNat = b.toNat := by
  constructor
  · intro h; rw [h]
  · intro h; exact Char.eq_of_val_eq (UInt32.ext h)

theorem toNat_charToLower (c : Char) :
    (charToLower c).toNat =
      if 65 ≤ c.toNat ∧ c.toNat ≤ 90 then c.toNat + 32 else c.toNat := by
  by_cases hc : 65 ≤ c.toNat ∧ c.toNat ≤ 90
  · have hv : Nat.isValidChar (c.toNat + 32) := Or.inl (by omega)
    unfold charToLower
    rw [if_pos hc, if_pos hc]
    unfold Char.ofNat
    rw [dif_pos hv]
    simp [Char.toNat, Char.ofNatAux, UInt32.toNat, BitVec.toNat_ofNatLt]
  · unfold charToLower
    rw [if_neg hc, if_neg hc]

theorem isAlphaChar_charToLower (c : Char) :
    isAlphaChar (charToLower c) = isAlphaChar c := by
  have h := toNat_charToLower c
  unfold isAlphaChar
  rw [Bool.eq_iff_iff]
  simp only [Bool.or_eq_true, Bool.and_eq_true, decide_eq_true_eq]
  by_cases hc : 65 ≤ c.toNat ∧ c.toNat ≤ 90
  · rw [if_pos hc] at h
    rw [h]; omega
  · rw [if_neg hc] at h
    rw [h]

theorem isDigitChar_charToLower (c : Char) :
    isDigitChar (charToLower c) = isDigitChar c := by
  have h := toNat_charToLower c
  unfold isDigitChar
  rw [Bool.eq_iff_iff]
  simp only [Bool.and_eq_true, decide_eq_true_eq]
  by_cases hc : 65 ≤ c.toNat ∧ c.toNat ≤ 90
  · rw [if_pos hc] at h
    rw [h]; omega
  · rw [if_neg hc] at h
    rw [h]

theorem charToLower_eq_iff (c d : Char)
    (hd : (d.toNat < 65 ∨ 90 < d.toNat) ∧ (d.toNat < 97 ∨ 122 < d.toNat)) :
    (charToLower c = d) ↔ (c = d) := by
  rw [char_eq_iff_toNat, char_eq_iff_toNat, toNat_charToLower]
  by_cases hc : 65 ≤ c.toNat ∧ c.toNat ≤ 90
  · rw [if_pos hc]; omega
  · rw [if_neg hc]

theorem isLocalChar_charToLower (c : Char) :
    isLocalChar (charToLower c) = isLocalChar c := by
  unfold isLocalChar
  rw [isAlphaChar_charToLower, isDigitChar_charToLower,
    decide_eq_decide.mpr (charToLower_eq_iff c '.' (by decide)),
    decide_eq_decide.mpr (charToLower_eq_iff c '_' (by decide)),
    decide_eq_decide.mpr (charToLower_eq_iff c '%' (by decide)),
    decide_eq_decide.mpr (charToLower_eq_iff c '+' (by decide)),
    decide_eq_decide.mpr (charToLower_eq_iff c '-' (by decide))]

theorem isDomainChar_charToLower (c : Char) :
    isDomainChar (charToLower c) = isDomainChar c := by
  unfold isDomainChar
  rw [isAlphaChar_charToLower, isDigitChar_charToLower,
    decide_eq_decide.mpr (charToLower_eq_iff c '.' (by decide)),
    decide_eq_decide.mpr (charToLower_eq_iff c '-' (by decide))]

theorem jsSplit_nil (sep : Char) : jsSplit sep [] = [[]] := rfl

theorem jsSplit_cons (sep c : Char) (cs : List Char) :
    jsSplit sep (c :: cs) =
      if c = sep then [] :: jsSplit sep cs
      else
        match jsSplit sep cs with
        | [] => [[c]]
        | p :: ps => (c :: p) :: ps := rfl

theorem jsSplit_ne_nil (sep : Char) (l : List Char) : jsSplit sep l ≠ [] := by
  induction l with
  | nil => simp [jsSplit]
  | cons c cs ih =>
    unfold jsSplit
    split
    · simp
    · split
      · simp
      · simp

theorem jsSplit_exists_cons (sep : Char) (l : List Char) :
    ∃ q qs, jsSplit sep l = q :: qs := by
  cases hx : jsSplit sep l with
  | nil => exact absurd hx (jsSplit_ne_nil sep l)
  | cons q qs => exact ⟨q, qs, rfl⟩

theorem jsSplit_of_not_mem {sep : Char} {l : List Char} (h : sep ∉ l) :
    jsSplit sep l = [l] := by
  induction l with
  | nil => rfl
  | cons c cs ih =>
    have hc : c ≠ sep := by intro he; exact h (he ▸ List.mem_cons_self c cs)
    have hcs : sep ∉ cs := fun hm => h (List.mem_cons_of_mem c hm)
    unfold jsSplit
    rw [if_neg hc, ih hcs]

theorem jsSplit_sep_append (sep : Char) (a b : List Char) :
    jsSplit sep (a ++ sep :: b) = jsSplit sep a ++ jsSplit sep b := by
  induction a with
  | nil =>
    show jsSplit sep (sep :: b) = jsSplit sep [] ++ jsSplit sep b
    rw [jsSplit_cons, if_pos rfl]
    rfl
  | cons c cs ih =>
    show jsSplit sep (c :: (cs ++ sep :: b)) = jsSplit sep (c :: cs) ++ jsSplit sep b
    by_cases hc : c = sep
    · rw [jsSplit_cons, if_pos hc, jsSplit_cons, if_pos hc, ih]
      simp
    · rw [jsSplit_cons, if_neg hc, jsSplit_cons, if_neg hc, ih]
      obtain ⟨p, ps, hps⟩ := jsSplit_exists_cons sep cs
      rw [hps]
      simp

theorem not_mem_of_mem_jsSplit {sep : Char} {l : List Char} {p : List Char}
    (hp : p ∈ jsSplit sep l) : sep ∉ p := by
  induction l generalizing p with
  | nil =>
    simp [jsSplit] at hp
    simp [hp]
  | cons c cs ih =>
    unfold jsSplit at hp
    by_cases hc : c = sep
    · rw [if_pos hc] at hp
      rcases List.mem_cons.mp hp with h | h
      · simp [h]
      · exact ih h
    · rw [if_neg hc] at hp
      obtain ⟨q, qs, hqs⟩ : ∃ q qs, jsSplit sep cs = q :: qs := by
        cases hx : jsSplit sep cs with
        | nil => exact absurd hx (jsSplit_ne_nil sep cs)
        | cons q qs => exact ⟨q, qs, rfl⟩
      rw [hqs] at hp
      rcases List.mem_cons.mp hp with h | h
      · subst h
        intro hm
        rcases List.mem_cons.mp hm with h | h
        · exact hc h.symm
        · exact ih (hqs ▸ List.mem_cons_self q qs) h
      · exact ih (hqs ▸ List.mem_cons_of_mem q h)

theorem joinSep_jsSplit (sep : Char) (l : List Char) :
    joinSep sep (jsSplit sep l) = l := by
  induction l with
  | nil => rfl
  | cons c cs ih =>
    unfold jsSplit
    by_cases hc : c = sep
    · rw [if_pos hc]
      obtain ⟨q, qs, hqs⟩ : ∃ q qs, jsSplit sep cs = q :: qs := by
        cases hx : jsSplit sep cs with
        | nil => exact absurd hx (jsSplit_ne_nil sep cs)
        | cons q qs => exact ⟨q, qs, rfl⟩
      rw [hqs]
      rw [hqs] at ih
      show sep :: joinSep sep (q :: qs) = c :: cs
      rw [ih, hc]
    · rw [if_neg hc]
      obtain ⟨q, qs, hqs⟩ : ∃ q qs, jsSplit sep cs = q :: qs := by
        cases hx : jsSplit sep cs with
        | nil => exact absurd hx (jsSplit_ne_nil sep cs)
        | cons q qs => exact ⟨q, qs, rfl⟩
      rw [hqs]
      rw [hqs] at ih
      cases qs with
      | nil =>
        show c :: q = c :: cs
        simpa [joinSep] using ih
      | cons r rs =>
        show (c :: q) ++ sep :: joinSep sep (r :: rs) = c :: cs
        simpa [joinSep] using ih

theorem jsSplit_length (sep : Char) (l : List Char) :
    (jsSplit sep l).length = l.count sep + 1 := by
  induction l with
  | nil => simp [jsSplit]
  | cons c cs ih =>
    unfold jsSplit
    by_cases hc : c = sep
    · rw [if_pos hc]
      simp [hc, List.count_cons, ih]
    · rw [if_neg hc]
      obtain ⟨q, qs, hqs⟩ : ∃ q qs, jsSplit sep cs = q :: qs := by
        cases hx : jsSplit sep cs with
        | nil => exact absurd hx (jsSplit_ne_nil sep cs)
        | cons q qs => exact ⟨q, qs, rfl⟩
      rw [hqs]
      rw [hqs] at ih
      simp only [List.length_cons] at ih ⊢
      simp [List.count_cons, hc, ih]

theorem joinSep_append_single (sep : Char) (xs : List (List Char)) (y : List Char)
    (hxs : xs ≠ []) : joinSep sep (xs ++ [y]) = joinSep sep xs ++ sep :: y := by
  induction xs with
  | nil => exact absurd rfl hxs
  | cons p ps ih =>
    cases ps with
    | nil => simp [joinSep]
    | cons q qs =>
      have := ih (by simp)
      show p ++ sep :: joinSep sep ((q :: qs) ++ [y]) = (p ++ sep :: joinSep sep (q :: qs)) ++ sep :: y
      rw [this]
      simp

theorem jsSplit_map (sep : Char) (f : Char → Char)
    (hf : ∀ c, (f c = sep) ↔ (c = sep)) (l : List Char) :
    jsSplit sep (l.map f) = (jsSplit sep l).map (List.map f) := by
  induction l with
  | nil => simp [jsSplit]
  | cons c cs ih =>
    simp only [List.map_cons]
    by_cases hc : c = sep
    · rw [jsSplit_cons, if_pos ((hf c).mpr hc), jsSplit_cons, if_pos hc, ih]
      simp
    · rw [jsSplit_cons, if_neg (fun h => hc ((hf c).mp h)), jsSplit_cons, if_neg hc, ih]
      obtain ⟨q, qs, hqs⟩ := jsSplit_exists_cons sep cs
      rw [hqs]
      simp

/-- C2: when the syntax check fails, `checkEmail` returns the bare record —
`syntaxValid = false`, every optional field still `none`, only the input
email and the pass-through quota set — and the SMTP probe is not invoked
(the probe flag of the embedding is `false`); no later check can run since
the whole pipeline result is this constant. -/
theorem checkEmail_invalid_syntax (env : Env) (email : String)
    (bl al : List String) (sk : Bool) (q : Int)
    (hsyn : syntaxCheck email = false) :
    checkEmail env email bl al sk q =
      ({ email := email, syntaxValid := false, requestsLeft := q,
         mx := none, smtp := none, inBlocklist := none, inTrustedDomains := none,
         isRole := none, isDisposable := none, hasSPF := none, hasDMARC := none,
         domainAgeYears := none, noProbeList := none }, false) := by
  simp [checkEmail, initialResult, hsyn]

theorem checkEmail_invalid_syntax_witness :
    syntaxCheck "not-an-email" = false ∧
    checkEmail mockEnv "not-an-email" [] [] false 0 =
      ({ email := "not-an-email", syntaxValid := false, requestsLeft := 0,
         mx := none, smtp := none, inBlocklist := none, inTrustedDomains := none,
         isRole := none, isDisposable := none, hasSPF := none, hasDMARC := none,
         domainAgeYears := none, noProbeList := none }, false) :=
  ⟨by decide, checkEmail_invalid_syntax mockEnv "not-an-email" [] [] false 0 (by decide)⟩

/-- C6: for every syntactically valid address the `isDisposable` field of
the result equals its `inBlocklist` field (the orchestrator assigns
`result.isDisposable = result.inBlocklist`). -/
theorem checkEmail_isDisposable_eq_inBlocklist (env : Env) (email : String)
    (bl al : List String) (sk : Bool) (q : Int)
    (hsyn : syntaxCheck email = true) :
    (checkEmail env email bl al sk q).1.isDisposable =
      (checkEmail env email bl al sk q).1.inBlocklist := by
  simp [checkEmail, initialResult, hsyn]

theorem checkEmail_isDisposable_eq_inBlocklist_witness :
    syntaxCheck "user@example.com" = true ∧
    (checkEmail mockEnv "user@example.com" ["example.com"] [] false 0).1.isDisposable =
      (checkEmail mockEnv "user@example.com" ["example.com"] [] false 0).1.inBlocklist :=
  ⟨by decide,
   checkEmail_isDisposable_eq_inBlocklist mockEnv "user@example.com"
     ["example.com"] [] false 0 (by decide)⟩

/-- C1 (amended): for every syntactically valid address whose lower-cased
domain is in the no-probe list, the SMTP probe is never invoked — for any
MX outcome — and `smtp` is recorded as failed with reason
`"Provider blocks SMTP probes"` when `skipSMTP` is false, but with reason
`"SMTP check skipped by request"` when `skipSMTP` is true (the
`skipSMTP` branch of the orchestrator is tested first). -/
theorem checkEmail_noProbe (env : Env) (email : String)
    (bl al : List String) (sk : Bool) (q : Int)
    (hsyn : syntaxCheck email = true)
    (hnp : NO_PROBE_PROVIDERS.contains (emailDomain email) = true) :
    (checkEmail env email bl al sk q).2 = false ∧
    (checkEmail env email bl al sk q).1.smtp =
      some { ok := false,
             error := some (if sk then "SMTP check skipped by request"
                            else "Provider blocks SMTP probes") } := by
  have hnp' : emailDomain email ∈ NO_PROBE_PROVIDERS := by simpa using hnp
  cases sk <;> simp [checkEmail, initialResult, hsyn, hnp']

theorem checkEmail_noProbe_witness :
    syntaxCheck "user@gmail.com" = true ∧
    NO_PROBE_PROVIDERS.contains (emailDomain "user@gmail.com") = true ∧
    (checkEmail mockEnv "user@gmail.com" [] [] false 0).2 = false ∧
    (checkEmail mockEnv "user@gmail.com" [] [] false 0).1.smtp =
      some { ok := false, error := some "Provider blocks SMTP probes" } := by
  refine ⟨by decide, by decide, ?_⟩
  have h := checkEmail_noProbe mockEnv "user@gmail.com" [] [] false 0
    (by decide) (by decide)
  simpa using h

/-- C1 (counterexample): `"user@gmail.com"` is syntactically valid, its
domain is in the no-probe list and `mockEnv` resolves MX successfully, yet
with `skipSMTP = true` the recorded reason is
`"SMTP check skipped by request"`, not the fixed reason
`"Provider blocks SMTP probes"` the claim demands for every value of the
flag. -/
theorem checkEmail_noProbe_counterexample :
    (checkEmail mockEnv "user@gmail.com" [] [] true 0).1.noProbeList = some true ∧
    (checkEmail mockEnv "user@gmail.com" [] [] true 0).1.smtp =
      some { ok := false, error := some "SMTP check skipped by request" } ∧
    (checkEmail mockEnv "user@gmail.com" [] [] true 0).1.smtp ≠
      some { ok := false, error := some "Provider blocks SMTP probes" } := by
  refine ⟨by decide, by decide, by decide⟩

/-- C3: an MX query that throws and an MX query that returns zero records
are treated alike: `checkMX` turns both into an `Error` carrying a
diagnostic message, the orchestrator stores `mx = \x7b ok: false \x7d`, the SMTP
probe is never invoked, and the `smtp` field is never marked ok (it stays
absent, or holds a skip reason with `ok = false`). -/
theorem checkEmail_mx_failure (env : Env) (email : String)
    (bl al : List String) (sk : Bool) (q : Int)
    (hsyn : syntaxCheck email = true)
    (hmx : env.resolveMx (emailDomain email) = .ok [] ∨
           ∃ m, env.resolveMx (emailDomain email) = .error m) :
    (∃ msg, checkMX env (emailDomain email) = .error msg) ∧
    (checkEmail env email bl al sk q).1.mx = some { ok := false } ∧
    (checkEmail env email bl al sk q).2 = false ∧
    (∀ s, (checkEmail env email bl al sk q).1.smtp = some s → s.ok = false) := by
  obtain ⟨msg, hcm⟩ : ∃ msg, checkMX env (emailDomain email) = .error msg := by
    rcases hmx with h | ⟨m, h⟩
    · exact ⟨"No MX records found", by simp [checkMX, h]⟩
    · exact ⟨"DNS lookup failed: " ++ m, by simp [checkMX, h]⟩
  refine ⟨⟨msg, hcm⟩, ?_, ?_, ?_⟩
  · simp [checkEmail, initialResult, hsyn, hcm]
  · simp [checkEmail, initialResult, hsyn, hcm]
    split_ifs <;> rfl
  · intro s hs
    simp [checkEmail, initialResult, hsyn, hcm] at hs
    split_ifs at hs
    · injection hs with h
      subst h
      rfl
    · injection hs with h
      subst h
      rfl

theorem checkEmail_mx_failure_witness :
    syntaxCheck "user@example.com" = true ∧
    (mockEnvNoMx.resolveMx (emailDomain "user@example.com") = .ok [] ∨
      ∃ m, mockEnvNoMx.resolveMx (emailDomain "user@example.com") = .error m) ∧
    ((∃ msg, checkMX mockEnvNoMx (emailDomain "user@example.com") = .error msg) ∧
     (checkEmail mockEnvNoMx "user@example.com" [] [] false 0).1.mx = some { ok := false } ∧
     (checkEmail mockEnvNoMx "user@example.com" [] [] false 0).2 = false ∧
     (∀ s, (checkEmail mockEnvNoMx "user@example.com" [] [] false 0).1.smtp = some s →
        s.ok = false)) :=
  ⟨by decide, Or.inl rfl,
   checkEmail_mx_failure mockEnvNoMx "user@example.com" [] [] false 0
     (by decide) (Or.inl rfl)⟩

/-- C9: `hasSPF` is true iff the TXT lookup of the domain succeeded and
some returned record (chunks joined), lower-cased, starts with `v=spf1`;
`hasDMARC` queries `_dmarc.` before the domain and tests `v=dmarc1`; every
DNS error (NXDOMAIN included) makes them `false` — no error escapes. -/
theorem hasSPF_hasDMARC_spec (env : Env) (domain : String) :
    (∀ records, env.resolveTxt domain = .ok records →
      (hasSPF env domain = true ↔
        ∃ txt ∈ records,
          jsStartsWith (jsToLower (String.join txt).data) "v=spf1".data)) ∧
    (∀ msg, env.resolveTxt domain = .error msg → hasSPF env domain = false) ∧
    (∀ records, env.resolveTxt ("_dmarc." ++ domain) = .ok records →
      (hasDMARC env domain = true ↔
        ∃ txt ∈ records,
          jsStartsWith (jsToLower (String.join txt).data) "v=dmarc1".data)) ∧
    (∀ msg, env.resolveTxt ("_dmarc." ++ domain) = .error msg →
      hasDMARC env domain = false) := by
  refine ⟨?_, ?_, ?_, ?_⟩
  · intro records h
    simp [hasSPF, h, List.any_eq_true]
  · intro msg h
    simp [hasSPF, h]
  · intro records h
    simp [hasDMARC, h, List.any_eq_true]
  · intro msg h
    simp [hasDMARC, h]

theorem hasSPF_hasDMARC_spec_witness :
    (mockEnvSpf.resolveTxt "example.com" = .ok [["V=sPf1 include:x"], ["other"]] ∧
      hasSPF mockEnvSpf "example.com" = true) ∧
    (mockEnv.resolveTxt "example.com" = .error "queryTxt ENODATA" ∧
      hasSPF mockEnv "example.com" = false) := by
  constructor
  · refine ⟨rfl, ?_⟩
    have h := (hasSPF_hasDMARC_spec mockEnvSpf "example.com").1
      [["V=sPf1 include:x"], ["other"]] rfl
    exact h.mpr ⟨["V=sPf1 include:x"], by decide, by decide⟩
  · refine ⟨rfl, ?_⟩
    exact (hasSPF_hasDMARC_spec mockEnv "example.com").2.1 "queryTxt ENODATA" rfl

theorem all_map_charToLower (p : Char → Bool) (hp : ∀ c, p (charToLower c) = p c)
    (xs : List Char) : (xs.map charToLower).all p = xs.all p := by
  induction xs with
  | nil => rfl
  | cons c cs ih =>
    simp only [List.map_cons, List.all_cons]
    rw [hp c]
    exact congrArg (fun x => p c && x) ih

theorem joinSep_map (sep : Char) (f : Char → Char) (hf : f sep = sep)
    (xss : List (List Char)) :
    joinSep sep (xss.map (List.map f)) = (joinSep sep xss).map f := by
  induction xss with
  | nil => rfl
  | cons p ps ih =>
    cases ps with
    | nil => rfl
    | cons q qs =>
      show (p.map f) ++ sep :: joinSep sep ((q :: qs).map (List.map f)) =
        (p ++ sep :: joinSep sep (q :: qs)).map f
      rw [ih]
      simp [hf]

theorem domainOk_map_charToLower (d : List Char) :
    domainOk (d.map charToLower) = domainOk d := by
  have hdot : ∀ c, (charToLower c = '.') ↔ (c = '.') :=
    fun c => charToLower_eq_iff c '.' (by decide)
  have hsp : jsSplit '.' (d.map charToLower) =
      (jsSplit '.' d).map (List.map charToLower) :=
    jsSplit_map '.' charToLower hdot d
  unfold domainOk
  rw [hsp, ← List.map_reverse]
  cases h : (jsSplit '.' d).reverse with
  | nil => rfl
  | cons t rest =>
    cases rest with
    | nil => rfl
    | cons p ps =>
      simp only [List.map_cons]
      have hpre : joinSep '.' ((List.map charToLower p :: ps.map (List.map charToLower)).reverse) =
          (joinSep '.' ((p :: ps).reverse)).map charToLower := by
        have he : (List.map charToLower p :: ps.map (List.map charToLower)) =
            (p :: ps).map (List.map charToLower) := rfl
        rw [he, ← List.map_reverse]
        exact joinSep_map '.' charToLower (by decide) ((p :: ps).reverse)
      rw [hpre]
      have h1 : ((joinSep '.' ((p :: ps).reverse)).map charToLower ≠ []) ↔
          (joinSep '.' ((p :: ps).reverse) ≠ []) := by
        simp
      rw [decide_eq_decide.mpr h1,
        all_map_charToLower isDomainChar isDomainChar_charToLower,
        all_map_charToLower isAlphaChar isAlphaChar_charToLower,
        List.length_map]

theorem truthyOpt_some (b : Bool) : truthyOpt (some b) = b := rfl

theorem ageBonus_bounds (x : Option JsNum) : 0 ≤ ageBonus x ∧ ageBonus x ≤ 10 := by
  cases x with
  | none => simp [ageBonus]
  | some j =>
    cases j with
    | nan => simp [ageBonus]
    | int n =>
      simp only [ageBonus]
      split_ifs with h
      · constructor
        · rcases le_total n 10 with h10 | h10 <;> simp [min_def, h10] <;> omega
        · exact min_le_right n 10
      · simp

theorem calculateScore_le_of_raw_le {a b : EmailCheckResult}
    (hsv : a.syntaxValid = b.syntaxValid)
    (hraw : calculateScoreRaw a ≤ calculateScoreRaw b) :
    calculateScore a ≤ calculateScore b := by
  unfold calculateScore
  rw [hsv]
  cases h : b.syntaxValid with
  | false => simp [h]
  | true =>
    simp only [h, Bool.not_true, Bool.false_eq_true, if_false]
    split_ifs <;> omega

theorem calculateScore_mem_range (r : EmailCheckResult) :
    0 ≤ calculateScore r ∧ calculateScore r ≤ 100 := by
  unfold calculateScore
  cases h : r.syntaxValid with
  | false => simp [h]
  | true =>
    simp only [h, Bool.not_true, Bool.false_eq_true, if_false]
    split_ifs <;> omega

/-- C5: `calculateScore` always lands in `[0, 100]`, and setting any one of
`hasSPF`, `hasDMARC`, `mx.ok` or `smtp.ok` to true while holding every
other field fixed never decreases the score (so in particular flipping one
of them from false or absent to true never decreases it). -/
theorem calculateScore_range_monotone (r : EmailCheckResult) :
    (0 ≤ calculateScore r ∧ calculateScore r ≤ 100) ∧
    calculateScore r ≤ calculateScore { r with hasSPF := some true } ∧
    calculateScore r ≤ calculateScore { r with hasDMARC := some true } ∧
    calculateScore r ≤ calculateScore { r with mx := some { ok := true } } ∧
    calculateScore r ≤ calculateScore { r with smtp := some { ok := true, error := none } } := by
  refine ⟨calculateScore_mem_range r, ?_, ?_, ?_, ?_⟩
  · refine calculateScore_le_of_raw_le rfl ?_
    simp only [calculateScoreRaw, truthyOpt_some]
    cases htr : truthyOpt r.hasSPF <;> simp [htr] <;> omega
  · refine calculateScore_le_of_raw_le rfl ?_
    simp only [calculateScoreRaw, truthyOpt_some]
    cases htr : truthyOpt r.hasDMARC <;> simp [htr] <;> omega
  · refine calculateScore_le_of_raw_le rfl ?_
    simp only [calculateScoreRaw, Option.map_some', truthyOpt_some]
    cases htr : truthyOpt (r.mx.map MxStatus.ok) <;> simp [htr] <;> omega
  · refine calculateScore_le_of_raw_le rfl ?_
    simp only [calculateScoreRaw, Option.map_some', truthyOpt_some]
    cases htr : truthyOpt (r.smtp.map SmtpStatus.ok) <;> simp [htr] <;> omega

/-- C7: a result produced by `checkEmail` with `inBlocklist = some true`
also has `isDisposable = some true`, so the accumulated, pre-clamp score
takes both the blocklist penalty (−20) and the disposable penalty (−25):
it is exactly 45 points below the otherwise-identical result with both
flags false. -/
theorem checkEmail_blocklist_double_penalty (env : Env) (email : String)
    (bl al : List String) (sk : Bool) (q : Int)
    (hb : (checkEmail env email bl al sk q).1.inBlocklist = some true) :
    calculateScoreRaw (checkEmail env email bl al sk q).1 =
      calculateScoreRaw { (checkEmail env email bl al sk q).1 with
        inBlocklist := some false, isDisposable := some false } - 45 := by
  by_cases hsyn : syntaxCheck email = true
  · simp only [checkEmail, initialResult, hsyn] at hb ⊢
    simp at hb
    simp [calculateScoreRaw, truthyOpt, hb]
    omega
  · have hsf : syntaxCheck email = false := by
      revert hsyn; cases syntaxCheck email <;> simp
    simp [checkEmail, initialResult, hsf] at hb

theorem checkEmail_blocklist_double_penalty_witness :
    (checkEmail mockEnv "user@example.com" ["example.com"] [] false 0).1.inBlocklist
      = some true ∧
    calculateScoreRaw (checkEmail mockEnv "user@example.com" ["example.com"] [] false 0).1 =
      calculateScoreRaw { (checkEmail mockEnv "user@example.com" ["example.com"] [] false 0).1
        with inBlocklist := some false, isDisposable := some false } - 45 :=
  ⟨by decide,
   checkEmail_blocklist_double_penalty mockEnv "user@example.com" ["example.com"] []
     false 0 (by decide)⟩

/-- C4 (the code, evaluated at the failing inputs): a WHOIS response whose
creation date is truthy but unparseable makes `getDomainAge` return `NaN`
rather than `0`, and a creation date one year in the future of the clock
makes it return `-1` — so the claim that every malformed date yields
exactly `0` and that the result is a non-negative integer is violated by
the code. -/
theorem getDomainAge_bug_eval :
    getDomainAge mockEnvBadDate "example.com" = JsNum.nan ∧
    getDomainAge mockEnvFutureDate "example.com" = JsNum.int (-1) ∧
    JsNum.nan ≠ JsNum.int 0 ∧ (-1 : Int) < 0 := by
  refine ⟨by decide, by decide, by decide, by decide⟩

/-- C8: two addresses with the same split shape whose local parts and whose
domains agree up to ASCII letter case give identical `inBlocklist` and
`inTrustedDomains` fields for every blocklist and allowlist: the
orchestrator lower-cases the domain before any list lookup, and letter
case changes neither the syntax verdict nor the lower-cased domain. -/
theorem checkEmail_domain_case_insensitive (env : Env) (e1 e2 : String)
    (l1 l2 d1 d2 : List Char) (bl al : List String) (sk : Bool) (q : Int)
    (h1 : jsSplit '@' e1.data = [l1, d1])
    (h2 : jsSplit '@' e2.data = [l2, d2])
    (hl : l1.map charToLower = l2.map charToLower)
    (hd : d1.map charToLower = d2.map charToLower) :
    (checkEmail env e1 bl al sk q).1.inBlocklist =
      (checkEmail env e2 bl al sk q).1.inBlocklist ∧
    (checkEmail env e1 bl al sk q).1.inTrustedDomains =
      (checkEmail env e2 bl al sk q).1.inTrustedDomains := by
  have hlen : l1.length = l2.length := by
    have := congrArg List.length hl
    simpa using this
  have hne : (decide (l1 ≠ [])) = (decide (l2 ≠ [])) := by
    have h0 : (l1 = []) ↔ (l2 = []) := by
      rw [← List.length_eq_zero, ← List.length_eq_zero, hlen]
    exact decide_eq_decide.mpr (not_congr h0)
  have hall : l1.all isLocalChar = l2.all isLocalChar := by
    rw [← all_map_charToLower isLocalChar isLocalChar_charToLower l1, hl,
      all_map_charToLower isLocalChar isLocalChar_charToLower l2]
  have hdo : domainOk d1 = domainOk d2 := by
    rw [← domainOk_map_charToLower d1, hd, domainOk_map_charToLower d2]
  have hsyn : syntaxCheck e1 = syntaxCheck e2 := by
    simp only [syntaxCheck, h1, h2]
    rw [hne, hall, hdo]
  have hdom : emailDomain e1 = emailDomain e2 := by
    simp only [emailDomain, h1, h2]
    exact congrArg List.asString hd
  cases hv : syntaxCheck e2 with
  | false =>
    have hv1 : syntaxCheck e1 = false := hsyn.trans hv
    simp [checkEmail, initialResult, hv1, hv]
  | true =>
    have hv1 : syntaxCheck e1 = true := hsyn.trans hv
    simp [checkEmail, initialResult, hv1, hv, hdom]

theorem checkEmail_domain_case_insensitive_witness :
    (checkEmail mockEnv "User@EXAMPLE.com" ["example.com"] [] false 0).1.inBlocklist =
      (checkEmail mockEnv "user@example.com" ["example.com"] [] false 0).1.inBlocklist ∧
    (checkEmail mockEnv "User@EXAMPLE.com" ["example.com"] [] false 0).1.inTrustedDomains =
      (checkEmail mockEnv "user@example.com" ["example.com"] [] false 0).1.inTrustedDomains :=
  checkEmail_domain_case_insensitive mockEnv "User@EXAMPLE.com" "user@example.com"
    "User".data "user".data "EXAMPLE.com".data "example.com".data
    ["example.com"] [] false 0 (by decide) (by decide) (by decide) (by decide)

theorem jsSplit_eq_two {sep : Char} {l a b : List Char}
    (h : jsSplit sep l = [a, b]) :
    l = a ++ sep :: b ∧ sep ∉ a ∧ sep ∉ b := by
  refine ⟨?_, ?_, ?_⟩
  · have hj := joinSep_jsSplit sep l
    rw [h] at hj
    exact hj.symm
  · have ha : a ∈ jsSplit sep l := by
      rw [h]
      simp
    exact not_mem_of_mem_jsSplit ha
  · have hb2 : b ∈ jsSplit sep l := by
      rw [h]
      simp
    exact not_mem_of_mem_jsSplit hb2

theorem jsSplit_two_of (sep : Char) (a b : List Char)
    (ha : sep ∉ a) (hb : sep ∉ b) :
    jsSplit sep (a ++ sep :: b) = [a, b] := by
  rw [jsSplit_sep_append, jsSplit_of_not_mem ha, jsSplit_of_not_mem hb]
  rfl

theorem domainOk_eq_true_iff (dom : List Char) :
    domainOk dom = true ↔
      ∃ mid tld, dom = mid ++ '.' :: tld ∧ mid ≠ [] ∧
        mid.all isDomainChar ∧ 2 ≤ tld.length ∧ tld.all isAlphaChar := by
  constructor
  · intro h
    unfold domainOk at h
    rcases hx : (jsSplit '.' dom).reverse with _ | ⟨tld, _ | ⟨p, ps⟩⟩
    · rw [hx] at h
      exact absurd h (by simp)
    · rw [hx] at h
      exact absurd h (by simp)
    · rw [hx] at h
      simp only [Bool.and_eq_true, decide_eq_true_eq] at h
      obtain ⟨⟨⟨hpre_ne, hpre_all⟩, htl_len⟩, htl_all⟩ := h
      refine ⟨joinSep '.' ((p :: ps).reverse), tld, ?_, hpre_ne, hpre_all, htl_len, htl_all⟩
      have hsple : jsSplit '.' dom = (p :: ps).reverse ++ [tld] := by
        have := congrArg List.reverse hx
        simpa using this
      have hj := joinSep_jsSplit '.' dom
      rw [hsple, joinSep_append_single '.' ((p :: ps).reverse) tld (by simp)] at hj
      exact hj.symm
  · rintro ⟨mid, tld, rfl, hmne, hmall, htlen, htall⟩
    have hdot_tld : '.' ∉ tld := by
      intro hm
      exact absurd (List.all_eq_true.mp htall _ hm) (by decide)
    have hsp : jsSplit '.' (mid ++ '.' :: tld) = jsSplit '.' mid ++ [tld] := by
      rw [jsSplit_sep_append, jsSplit_of_not_mem hdot_tld]
    obtain ⟨q, qs, hq⟩ := jsSplit_exists_cons '.' mid
    unfold domainOk
    rw [hsp, hq]
    rcases hrev : (q :: qs).reverse with _ | ⟨p, ps⟩
    · exact absurd hrev (by simp)
    · have hrr : (p :: ps).reverse = q :: qs := by
        rw [← hrev, List.reverse_reverse]
      have hshape : ((q :: qs) ++ [tld]).reverse = tld :: p :: ps := by
        rw [List.reverse_append, hrev]
        rfl
      rw [hshape]
      have hpre : joinSep '.' ((p :: ps).reverse) = mid := by
        rw [hrr, ← hq, joinSep_jsSplit]
      simp only [hpre]
      simp [hmne, hmall, htlen, htall]

/-- C10: `syntaxCheck` rejects the empty string, every string without `@`
and every string with more than one `@`; and it accepts exactly the
strings of the form `local @ mid . tld` with a nonempty local part of
local-class characters, a nonempty `mid` of domain-class characters, and
an alphabetic top-level label of length at least 2. -/
theorem syntaxCheck_spec (e : String) :
    syntaxCheck "" = false ∧
    ('@' ∉ e.data → syntaxCheck e = false) ∧
    (2 ≤ e.data.count '@' → syntaxCheck e = false) ∧
    (syntaxCheck e = true ↔
      ∃ lcl mid tld, e.data = lcl ++ '@' :: (mid ++ '.' :: tld) ∧
        lcl ≠ [] ∧ lcl.all isLocalChar ∧
        mid ≠ [] ∧ mid.all isDomainChar ∧
        2 ≤ tld.length ∧ tld.all isAlphaChar) := by
  refine ⟨by decide, ?_, ?_, ?_⟩
  · intro h
    unfold syntaxCheck
    rw [jsSplit_of_not_mem h]
  · intro h
    have hlen := jsSplit_length '@' e.data
    unfold syntaxCheck
    rcases hx : jsSplit '@' e.data with _ | ⟨a, _ | ⟨b, _ | ⟨c, rest⟩⟩⟩
    · rfl
    · rfl
    · rw [hx] at hlen
      simp at hlen
      omega
    · rfl
  · constructor
    · intro h
      unfold syntaxCheck at h
      rcases hx : jsSplit '@' e.data with _ | ⟨lcl, _ | ⟨dom, _ | _⟩⟩
      · rw [hx] at h
        exact absurd h (by simp)
      · rw [hx] at h
        exact absurd h (by simp)
      · rw [hx] at h
        simp only [Bool.and_eq_true, decide_eq_true_eq] at h
        obtain ⟨⟨hlne, hlall⟩, hdo⟩ := h
        obtain ⟨heq, _, _⟩ := jsSplit_eq_two hx
        obtain ⟨mid, tld, hdeq, hmne, hmall, htlen, htall⟩ :=
          (domainOk_eq_true_iff dom).mp hdo
        exact ⟨lcl, mid, tld, by rw [heq, hdeq], hlne, hlall, hmne, hmall, htlen, htall⟩
      · rw [hx] at h
        exact absurd h (by simp)
    · rintro ⟨lcl, mid, tld, heq, hlne, hlall, hmne, hmall, htlen, htall⟩
      have hat_l : '@' ∉ lcl := by
        intro hm
        exact absurd (List.all_eq_true.mp hlall _ hm) (by decide)
      have hat_r : '@' ∉ mid ++ '.' :: tld := by
        intro hm
        rcases List.mem_append.mp hm with hm | hm
        · exact absurd (List.all_eq_true.mp hmall _ hm) (by decide)
        · rcases List.mem_cons.mp hm with hm | hm
          · exact absurd hm (by decide)
          · exact absurd (List.all_eq_true.mp htall _ hm) (by decide)
      have hdata : jsSplit '@' e.data = [lcl, mid ++ '.' :: tld] := by
        rw [heq]
        exact jsSplit_two_of '@' lcl (mid ++ '.' :: tld) hat_l hat_r
      unfold syntaxCheck
      rw [hdata]
      have hdo : domainOk (mid ++ '.' :: tld) = true :=
        (domainOk_eq_true_iff _).mpr ⟨mid, tld, rfl, hmne, hmall, htlen, htall⟩
      simp [hlne, hlall, hdo]

theorem syntaxCheck_spec_witness :
    syntaxCheck "plainaddress" = false ∧
    syntaxCheck "a@b@c.com" = false ∧
    syntaxCheck "user@example.com" = true :=
  ⟨(syntaxCheck_spec "plainaddress").2.1 (by decide),
   (syntaxCheck_spec "a@b@c.com").2.2.1 (by decide),
   (syntaxCheck_spec "user@example.com").2.2.2.mpr
     ⟨"user".data, "example".data, "com".data, by decide, by decide, by decide,
      by decide, by decide, by decide, by decide⟩⟩

end EmailValidator
